import Mathlib

/-!
Verification of the Zip puzzle engine (`src/engine/seeder.ts`,
`src/engine/validator.ts`, and the generator in `src/engine/types.ts`).

Modelling conventions:
* JavaScript numbers are modelled as `Int` (every quantity involved is an
  integer); 32-bit wrapping arithmetic (`|0`, `Math.imul`, `^`, `>>>`) is
  written explicitly on the unsigned 32-bit representative (a `Nat < 2^32`).
* The mulberry32 generator state is threaded explicitly; its float output
  `t / 2^32` is only ever consumed as `Math.floor(rng() * m)`, which equals
  the exact integer `⌊t * m / 2^32⌋` because the float operations involved
  are exact for these magnitudes.
* Fallible JavaScript operations (the `TypeError` thrown by
  `visited[startRow][startCol] = true` when `visited` has no row
  `startRow`) are modelled with `Except String`.
-/

set_option maxRecDepth 4096

/-- Model of `Cell` from `types.ts`: an integer (row, col) pair. -/
structure Cell where
  row : Int
  col : Int
deriving DecidableEq, Repr

/-- Model of `Anchor` from `types.ts`: a cell plus its displayed sequential number. -/
structure Anchor where
  row : Int
  col : Int
  number : Int
deriving DecidableEq, Repr

/-- The cell part of an anchor. -/
def cellOf (a : Anchor) : Cell := ⟨a.row, a.col⟩

/-- Model of `ValidationResult` from `types.ts`. -/
structure ValidationResult where
  valid : Bool
  error : Option String
deriving DecidableEq, Repr

/-- Model of `isAdjacent` from `validator.ts`: horizontally or vertically adjacent. -/
def isAdjacent (a b : Cell) : Bool :=
  let dr := (a.row - b.row).natAbs
  let dc := (a.col - b.col).natAbs
  (dr == 1 && dc == 0) || (dr == 0 && dc == 1)

/-- Model of `isSameCell` from `validator.ts`. -/
def isSameCell (a b : Cell) : Bool :=
  a.row == b.row && a.col == b.col

/-- The coverage-mismatch reason of validator check 1, including the actual
path length and the required `gridSize²` count. -/
def coverageMsg (n : Nat) (total : Int) : String :=
  "Path covers " ++ toString n ++ "/" ++ toString total ++
    " cells. Every cell must be visited."

/-- The out-of-bounds reason of validator check 2. -/
def oobMsg (c : Cell) : String :=
  "Cell (" ++ toString c.row ++ ", " ++ toString c.col ++ ") is out of bounds."

/-- The duplicate-visit reason of validator check 3. -/
def dupMsg (c : Cell) : String :=
  "Cell (" ++ toString c.row ++ ", " ++ toString c.col ++ ") visited more than once."

/-- The non-adjacent-move reason of validator check 4. -/
def adjMsg (a b : Cell) : String :=
  "Move from (" ++ toString a.row ++ "," ++ toString a.col ++ ") to (" ++
    toString b.row ++ "," ++ toString b.col ++ ") is not adjacent."

/-- The anchors-out-of-order reason of validator check 5. -/
def anchorsMsg : String :=
  "Path does not pass through all anchors in ascending order."

/-- Validator check 2: the first out-of-bounds cell, in path order. -/
def findOob (gridSize : Int) : List Cell → Option Cell
  | [] => none
  | c :: cs =>
    if c.row < 0 || c.row ≥ gridSize || c.col < 0 || c.col ≥ gridSize then some c
    else findOob gridSize cs

/-- Validator check 3: the first repeated cell, in path order.  The source
tracks visited cells in a `Set` keyed by the string `row ++ "," ++ col`,
which is injective on integer pairs, so membership in the list of already
seen cells is an exact model. -/
def findDup (seen : List Cell) : List Cell → Option Cell
  | [] => none
  | c :: cs => if c ∈ seen then some c else findDup (c :: seen) cs

/-- Validator check 4: the first non-adjacent consecutive pair. -/
def findBadStep : List Cell → Option (Cell × Cell)
  | a :: b :: rest => if isAdjacent a b then findBadStep (b :: rest) else some (a, b)
  | _ => none

/-- Validator check 5, the in-order anchor scan: scanning the path left to
right, the current expected anchor cell is matched and consumed on first
encounter.  Returns the expected cells that remain unmatched at the end
(the check passes iff this is empty, i.e. `anchorIdx` reached the count). -/
def scanAnchors : List Cell → List Cell → List Cell
  | _, [] => []
  | [], es => es
  | c :: ps, e :: es =>
    if isSameCell c e then scanAnchors ps es else scanAnchors ps (e :: es)

/-- The validator's `[...anchors].sort((a, b) => a.number - b.number)`.
`Array.prototype.sort` is stable (ES2019), and a stable sort by a total
preorder has a unique result, so the stable `insertionSort` is an exact
model of it. -/
def sortAnchors (anchors : List Anchor) : List Anchor :=
  anchors.insertionSort (fun a b => a.number ≤ b.number)

/-- Model of `validatePath` from `validator.ts`: the five ordered, short-circuiting
checks. -/
def validatePath (path : List Cell) (anchors : List Anchor) (gridSize : Int) :
    ValidationResult :=
  let totalCells := gridSize * gridSize
  if (path.length : Int) ≠ totalCells then
    { valid := false, error := some (coverageMsg path.length totalCells) }
  else match findOob gridSize path with
    | some c => { valid := false, error := some (oobMsg c) }
    | none => match findDup [] path with
      | some c => { valid := false, error := some (dupMsg c) }
      | none => match findBadStep path with
        | some p => { valid := false, error := some (adjMsg p.1 p.2) }
        | none =>
          if scanAnchors path ((sortAnchors anchors).map cellOf) = [] then
            { valid := true, error := none }
          else { valid := false, error := some anchorsMsg }

/-- All cells of the `size × size` grid, row-major. -/
def gridCells (size : Int) : List Cell :=
  (List.range size.toNat).flatMap fun (r : Nat) =>
    (List.range size.toNat).map fun (c : Nat) => { row := (r : Int), col := (c : Int) }

/-- A cell is inside the `size × size` grid. -/
def inBounds (size : Int) (c : Cell) : Prop :=
  0 ≤ c.row ∧ c.row < size ∧ 0 ≤ c.col ∧ c.col < size

instance (size : Int) (c : Cell) : Decidable (inBounds size c) := by
  unfold inBounds; infer_instance

lemma mem_gridCells {size : Int} {c : Cell} :
    c ∈ gridCells size ↔ inBounds size c := by
  cases c with
  | mk row col =>
    simp only [gridCells, List.mem_flatMap, List.mem_map, List.mem_range, inBounds,
      Cell.mk.injEq]
    constructor
    · rintro ⟨r, hr, cc, hcc, rfl, rfl⟩
      refine ⟨by omega, by omega, by omega, by omega⟩
    · rintro ⟨h1, h2, h3, h4⟩
      exact ⟨row.toNat, by omega, col.toNat, by omega, by omega, by omega⟩

lemma length_gridCells (size : Int) :
    (gridCells size).length = size.toNat * size.toNat := by
  rw [gridCells, List.length_flatMap]
  have h : (List.map (List.length ∘ fun (r : Nat) =>
      List.map (fun (c : Nat) => ({ row := (r : Int), col := (c : Int) } : Cell))
        (List.range size.toNat)) (List.range size.toNat)) =
      List.replicate size.toNat size.toNat := by
    simp [Function.comp_def]
  rw [h, List.sum_replicate, smul_eq_mul]

lemma nodup_gridCells (size : Int) : (gridCells size).Nodup := by
  rw [gridCells, List.nodup_flatMap]
  refine ⟨fun r _ => List.Nodup.map ?_ (List.nodup_range _), ?_⟩
  · intro a b h
    simpa using congrArg Cell.col h
  · refine List.Pairwise.imp ?_ (List.nodup_range _)
    intro a b hab
    simp only [Function.onFun, List.disjoint_left]
    intro c hc hc'
    simp only [List.mem_map] at hc hc'
    obtain ⟨x, _, rfl⟩ := hc
    obtain ⟨y, _, hy⟩ := hc'
    exact hab (by simpa using (congrArg Cell.row hy).symm)

/-- Boolean version of "all consecutive cells are adjacent", for concrete
evaluation. -/
def adjacentChain : List Cell → Bool
  | a :: b :: rest => isAdjacent a b && adjacentChain (b :: rest)
  | _ => true

lemma chain'_iff_adjacentChain {path : List Cell} :
    path.Chain' (fun a b => isAdjacent a b = true) ↔ adjacentChain path = true := by
  induction path with
  | nil => simp [adjacentChain]
  | cons a l ih =>
    cases l with
    | nil => simp [adjacentChain]
    | cons b rest =>
      rw [List.chain'_cons, adjacentChain, Bool.and_eq_true, ih]

lemma isSameCell_iff {a b : Cell} : isSameCell a b = true ↔ a = b := by
  cases a; cases b
  simp [isSameCell, Cell.mk.injEq, and_comm]

lemma findOob_eq_none {size : Int} {path : List Cell}
    (h : ∀ c ∈ path, inBounds size c) : findOob size path = none := by
  induction path with
  | nil => rfl
  | cons c cs ih =>
    have hc := h c (List.mem_cons_self c cs)
    obtain ⟨h1, h2, h3, h4⟩ := hc
    simp only [findOob]
    rw [if_neg, ih fun x hx => h x (List.mem_cons_of_mem c hx)]
    simp only [Bool.or_eq_true, decide_eq_true_eq, not_or, not_lt, not_le]
    exact ⟨⟨⟨h1, h2⟩, h3⟩, h4⟩

lemma findDup_eq_none {path seen : List Cell}
    (hnd : path.Nodup) (hs : ∀ c ∈ path, c ∉ seen) : findDup seen path = none := by
  induction path generalizing seen with
  | nil => rfl
  | cons c cs ih =>
    simp only [findDup]
    rw [if_neg (hs c (List.mem_cons_self c cs))]
    apply ih (List.Nodup.of_cons hnd)
    intro x hx
    simp only [List.mem_cons, not_or]
    refine ⟨?_, hs x (List.mem_cons_of_mem c hx)⟩
    rintro rfl
    exact (List.nodup_cons.mp hnd).1 hx

lemma findBadStep_eq_none {path : List Cell}
    (h : path.Chain' (fun a b => isAdjacent a b = true)) : findBadStep path = none := by
  induction path with
  | nil => rfl
  | cons a l ih =>
    cases l with
    | nil => rfl
    | cons b rest =>
      obtain ⟨hab, htail⟩ := List.chain'_cons.mp h
      simp only [findBadStep]
      rw [if_pos hab]
      exact ih htail

/-- The greedy in-order scan succeeds whenever the expected cells occur in
the path in order (as a subsequence): greedy subsequence matching is
complete. -/
lemma scanAnchors_eq_nil_of_sublist {ps es : List Cell}
    (h : es.Sublist ps) : scanAnchors ps es = [] := by
  induction ps generalizing es with
  | nil =>
    rw [List.sublist_nil.mp h]
    rfl
  | cons c ps ih =>
    cases es with
    | nil => rfl
    | cons e es =>
      simp only [scanAnchors]
      cases h with
      | cons _ h' =>
        by_cases hce : isSameCell c e = true
        · rw [if_pos hce]
          exact ih (List.sublist_of_cons_sublist h')
        · rw [if_neg hce]
          exact ih h'
      | cons₂ _ h' =>
        rw [if_pos (isSameCell_iff.mpr rfl)]
        exact ih h'

/-- Conversely, if the greedy scan matches every expected cell then the
expected cells form a subsequence of the path. -/
lemma sublist_of_scanAnchors_eq_nil {ps es : List Cell}
    (h : scanAnchors ps es = []) : es.Sublist ps := by
  induction ps generalizing es with
  | nil =>
    cases es with
    | nil => exact List.Sublist.refl _
    | cons e es => exact absurd h (by simp [scanAnchors])
  | cons c ps ih =>
    cases es with
    | nil => exact List.nil_sublist _
    | cons e es =>
      simp only [scanAnchors] at h
      by_cases hce : isSameCell c e = true
      · rw [if_pos hce] at h
        obtain rfl : c = e := isSameCell_iff.mp hce
        exact (ih h).cons₂ c
      · rw [if_neg hce] at h
        exact (ih h).cons c

/-- **C1** (validator soundness): for every grid size `N ≥ 1`, every anchor
list, and every candidate path that is a permutation of all `N²` grid cells,
whose consecutive cells are all axis-adjacent at Manhattan distance 1 (so in
particular it visits no cell twice, being a permutation of distinct cells),
and that passes through the anchors sorted by number ascending in ascending
order (their cells occur in order as a subsequence of the path),
`validatePath path anchors N` returns `valid := true` with no error reason. -/
theorem c1_validator_soundness (N : Int) (anchors : List Anchor) (path : List Cell)
    (hN : 1 ≤ N)
    (hperm : path.Perm (gridCells N))
    (hadj : path.Chain' (fun a b => isAdjacent a b = true))
    (hanch : ((sortAnchors anchors).map cellOf).Sublist path) :
    validatePath path anchors N = { valid := true, error := none } := by
  have hlen : (path.length : Int) = N * N := by
    rw [hperm.length_eq, length_gridCells]
    have h0 : (0 : Int) ≤ N := by omega
    push_cast
    rw [Int.toNat_of_nonneg h0]
  have hb : ∀ c ∈ path, inBounds N c := fun c hc =>
    mem_gridCells.mp (hperm.subset hc)
  have hnd : path.Nodup := hperm.nodup_iff.mpr (nodup_gridCells N)
  simp only [validatePath]
  rw [if_neg (not_ne_iff.mpr hlen), findOob_eq_none hb,
    findDup_eq_none hnd (by simp), findBadStep_eq_none hadj,
    if_pos (scanAnchors_eq_nil_of_sublist hanch)]

/-- Witness for C1 at a concrete input: the boustrophedon tour of the 2×2
grid with anchors 1 at (0,0) and 2 at (1,0), given to the validator in
unsorted order. -/
theorem c1_validator_soundness_witness :
    validatePath [⟨0, 0⟩, ⟨0, 1⟩, ⟨1, 1⟩, ⟨1, 0⟩] [⟨1, 0, 2⟩, ⟨0, 0, 1⟩] 2 =
      { valid := true, error := none } :=
  c1_validator_soundness 2 [⟨1, 0, 2⟩, ⟨0, 0, 1⟩] [⟨0, 0⟩, ⟨0, 1⟩, ⟨1, 1⟩, ⟨1, 0⟩]
    (by decide) (by decide) (chain'_iff_adjacentChain.mpr (by decide)) (by decide)

/-- **C7**: whenever the path length differs from `gridSize²`, `validatePath`
fails immediately with the coverage-mismatch reason built from the actual
path length and `gridSize²`, regardless of the path's cells and of the
anchors. -/
theorem c7_coverage_mismatch (path : List Cell) (anchors : List Anchor) (gridSize : Int)
    (h : (path.length : Int) ≠ gridSize * gridSize) :
    validatePath path anchors gridSize =
      { valid := false, error := some (coverageMsg path.length (gridSize * gridSize)) } := by
  simp only [validatePath]
  rw [if_pos h]

/-- Witness for C7 at a concrete input: a 24-cell path on a 5×5 grid is
rejected with the coverage-mismatch reason naming 24 and 25. -/
theorem c7_coverage_mismatch_witness :
    validatePath ((gridCells 5).drop 1) [] 5 =
      { valid := false, error := some (coverageMsg 24 25) } :=
  c7_coverage_mismatch ((gridCells 5).drop 1) [] 5 (by decide)

/-- **C10**: if the anchor list contains two anchors with distinct numbers
but the same cell position, then `validatePath` rejects every candidate path
that contains no duplicate cells: the in-order scan can match a given path
cell to at most one expected anchor. -/
theorem c10_duplicate_anchor_position_rejects (path : List Cell) (anchors : List Anchor)
    (g : Int) (a₁ a₂ : Anchor) (h₁ : a₁ ∈ anchors) (h₂ : a₂ ∈ anchors)
    (hnum : a₁.number ≠ a₂.number) (hcell : cellOf a₁ = cellOf a₂)
    (hnd : path.Nodup) :
    (validatePath path anchors g).valid = false := by
  have key : scanAnchors path ((sortAnchors anchors).map cellOf) ≠ [] := by
    intro hscan
    have hsub := sublist_of_scanAnchors_eq_nil hscan
    have hndm : ((sortAnchors anchors).map cellOf).Nodup := hsub.nodup hnd
    have hmem₁ : a₁ ∈ sortAnchors anchors :=
      (List.perm_insertionSort _ anchors).mem_iff.mpr h₁
    have hmem₂ : a₂ ∈ sortAnchors anchors :=
      (List.perm_insertionSort _ anchors).mem_iff.mpr h₂
    have heq : a₁ = a₂ := List.inj_on_of_nodup_map hndm hmem₁ hmem₂ hcell
    exact hnum (by rw [heq])
  simp only [validatePath]
  by_cases hl : (path.length : Int) ≠ g * g
  · rw [if_pos hl]
  · rw [if_neg hl]
    cases hOob : findOob g path with
    | some c => rfl
    | none =>
      cases hDup : findDup [] path with
      | some c => rfl
      | none =>
        cases hBad : findBadStep path with
        | some p => rfl
        | none => rw [if_neg key]

/-- Witness for C10 at a concrete input: anchors 1 and 2 both at (0,0) make
the duplicate-free 2×2 tour invalid. -/
theorem c10_duplicate_anchor_position_rejects_witness :
    (validatePath [⟨0, 0⟩, ⟨0, 1⟩, ⟨1, 1⟩, ⟨1, 0⟩] [⟨0, 0, 1⟩, ⟨0, 0, 2⟩] 2).valid = false :=
  c10_duplicate_anchor_position_rejects [⟨0, 0⟩, ⟨0, 1⟩, ⟨1, 1⟩, ⟨1, 0⟩]
    [⟨0, 0, 1⟩, ⟨0, 0, 2⟩] 2 ⟨0, 0, 1⟩ ⟨0, 0, 2⟩ (by decide) (by decide)
    (by decide) rfl (by decide)

/-- Model of `hashDate` from `seeder.ts`, one step of
`hash = (hash << 5) - hash + chr; hash |= 0`.  The running hash is kept as
its unsigned 32-bit representative; since signed and unsigned representatives
agree modulo `2^32` and the JavaScript float arithmetic between the `|0`
truncations is exact, one step is `(32·h - h + chr) mod 2^32`. -/
def hashStep (h : Nat) (c : Char) : Nat :=
  (h * 32 - h + c.toNat) % 2 ^ 32

/-- Model of `hashDate` from `seeder.ts`: fold the step over the seed
string's characters (UTF-16 code units; for the basic-multilingual-plane
strings used as seeds, `charCodeAt` equals the code point), then
`Math.abs` of the signed 32-bit value. -/
def hashDate (s : String) : Nat :=
  let h := s.data.foldl hashStep 0
  if h < 2 ^ 31 then h else 2 ^ 32 - h

/-- Model of `createRng` from `seeder.ts`: mulberry32.  The closure's state
`s = seed | 0` is represented by its unsigned 32-bit representative. -/
def createRng (seed : Nat) : Nat :=
  seed % 2 ^ 32

/-- One step of the mulberry32 generator from `seeder.ts`: returns the
32-bit output `t` (the JavaScript call returns the float `t / 2^32`) and
the updated state.  `Math.imul` is multiplication mod `2^32`; `^`, `|`,
`>>>` act on the 32-bit pattern, which is the unsigned representative. -/
def mulberryNext (s : Nat) : Nat × Nat :=
  let s1 := (s + 0x6d2b79f5) % 2 ^ 32
  let t1 := ((s1 ^^^ (s1 >>> 15)) * (1 ||| s1)) % 2 ^ 32
  let t2 := ((t1 + ((t1 ^^^ (t1 >>> 7)) * (61 ||| t1)) % 2 ^ 32) % 2 ^ 32) ^^^ t1
  (t2 ^^^ (t2 >>> 14), s1)

/-- Model of `Math.floor(rng() * m)`: with `rng() = t / 2^32` and
`|t * m| < 2^53` every float operation involved is exact, so the result is
the floor of the exact rational `t * m / 2^32`. -/
def drawIndex (st : Nat) (m : Int) : Int × Nat :=
  let p := mulberryNext st
  (Int.fdiv ((p.1 : Int) * m) (2 ^ 32), p.2)

/-- Numeric value of an ASCII digit. -/
def digitVal (c : Char) : Nat := c.toNat - 48

/-- Model of the generator's strict-date test `/^\d{4}-\d{2}-\d{2}$/`. -/
def isDateFormat (s : String) : Bool :=
  match s.data with
  | [y1, y2, y3, y4, h1, m1, m2, h2, d1, d2] =>
    y1.isDigit && y2.isDigit && y3.isDigit && y4.isDigit && h1 == '-' &&
      m1.isDigit && m2.isDigit && h2 == '-' && d1.isDigit && d2.isDigit
  | _ => false

/-- Gregorian leap-year test. -/
def isLeapYear (y : Nat) : Bool :=
  (y % 4 == 0 && y % 100 != 0) || y % 400 == 0

/-- Number of days in a month of the (proleptic) Gregorian calendar. -/
def daysInMonth (y m : Nat) : Nat :=
  if m == 2 then (if isLeapYear y then 29 else 28)
  else if m == 4 || m == 6 || m == 9 || m == 11 then 30
  else 31

/-- Day of week (0 = Sunday .. 6 = Saturday, the `Date.prototype.getDay`
convention) of a proleptic-Gregorian calendar date, by Zeller's congruence
(whose `h` counts 0 = Saturday). -/
def dayOfWeek (y m d : Nat) : Nat :=
  let mm : Int := if m ≤ 2 then (m : Int) + 12 else (m : Int)
  let yy : Int := if m ≤ 2 then (y : Int) - 1 else (y : Int)
  let K := yy.emod 100
  let J := Int.fdiv yy 100
  let h := ((d : Int) + Int.fdiv (13 * (mm + 1)) 5 + K + Int.fdiv K 4 +
    Int.fdiv J 4 + 5 * J).emod 7
  ((h + 6).emod 7).toNat

/-- Parse a strict `YYYY-MM-DD` string into a valid calendar date, or
`none`.  This models `new Date(dateStr)` followed by the `NaN` check:
for strings in the strict ISO date format, V8 yields an Invalid Date
exactly when the components do not form a real calendar date; the parsed
instant is UTC midnight, so the calendar date itself determines the day
of week (the engine is modelled as running with a UTC-or-positive offset,
where `getDay` of that instant is the date's own weekday). -/
def parseDate (s : String) : Option (Nat × Nat × Nat) :=
  if isDateFormat s then
    match s.data with
    | [y1, y2, y3, y4, _, m1, m2, _, d1, d2] =>
      let y := ((digitVal y1 * 10 + digitVal y2) * 10 + digitVal y3) * 10 + digitVal y4
      let m := digitVal m1 * 10 + digitVal m2
      let d := digitVal d1 * 10 + digitVal d2
      if 1 ≤ m ∧ m ≤ 12 ∧ 1 ≤ d ∧ d ≤ daysInMonth y m then some (y, m, d) else none
    | _ => none
  else none

/-- The difficulty label of `types.ts` / `seeder.ts`. -/
inductive Difficulty
  | easy
  | medium
  | hard
deriving DecidableEq, Repr

/-- Result shape of `getDifficultyForDate`. -/
structure DifficultySize where
  difficulty : Difficulty
  size : Int
deriving DecidableEq, Repr

/-- Model of `getDifficultyForDate` from `seeder.ts`: map day-of-week to a
difficulty tier.  When the date does not parse, `getDay()` is `NaN` and
both range tests are false, so the hard tier is returned. -/
def getDifficultyForDate (dateStr : String) : DifficultySize :=
  match parseDate dateStr with
  | some (y, m, d) =>
    let day := dayOfWeek y m d
    if 1 ≤ day ∧ day ≤ 3 then ⟨Difficulty.easy, 5⟩
    else if 4 ≤ day ∧ day ≤ 5 then ⟨Difficulty.medium, 6⟩
    else ⟨Difficulty.hard, 7⟩
  | none => ⟨Difficulty.hard, 7⟩

/-- The four direction offsets of the generator, in source order:
right, down, left, up. -/
def DIRS : List (Int × Int) := [(0, 1), (1, 0), (0, -1), (-1, 0)]

/-- The generator's `visited` array: a list of rows of booleans. -/
abbrev Grid : Type := List (List Bool)

/-- Model of `Array.from({length: size}, () => Array(size).fill(false))`
(a negative length is clamped to zero by `ToLength`). -/
def mkVisited (size : Int) : Grid :=
  List.replicate size.toNat (List.replicate size.toNat false)

/-- Read `visited[r][c]`.  Only ever evaluated under the bounds guards of
`isValid`, where `0 ≤ r, c`, so `Int.toNat` indexing is exact. -/
def visGet (v : Grid) (r c : Int) : Bool :=
  (List.getD v r.toNat []).getD c.toNat false

/-- Write `visited[r][c] = true` at an in-range row (the out-of-range row
case throws in JavaScript and is handled separately in `runAttempt`). -/
def visSet (v : Grid) (r c : Int) : Grid :=
  List.set v r.toNat ((List.getD v r.toNat []).set c.toNat true)

/-- Model of `isValid` from the generator in `types.ts`: short-circuit
bounds checks and then the visited lookup. -/
def isValid (row col size : Int) (v : Grid) : Bool :=
  decide (0 ≤ row) && decide (row < size) && decide (0 ≤ col) &&
    decide (col < size) && !(visGet v row col)

/-- Model of `countNeighbours` from the generator in `types.ts`. -/
def countNeighbours (row col size : Int) (v : Grid) : Nat :=
  (DIRS.filter fun dd => isValid (row + dd.1) (col + dd.2) size v).length

/-- The valid neighbours of the current cell, with their Warnsdorff
scores, in `DIRS` order (the `neighbours` array of the source). -/
def neighbourCells (size : Int) (v : Grid) (cur : Cell) : List (Cell × Nat) :=
  DIRS.filterMap fun dd =>
    let nr := cur.row + dd.1
    let nc := cur.col + dd.2
    if isValid nr nc size v then some (⟨nr, nc⟩, countNeighbours nr nc size v)
    else none

/-- Selection of the next cell from the non-empty neighbour list.  The
source takes `neighbours.sort(cmp)[0]`, where `cmp` compares Warnsdorff
scores and returns `rng() - 0.5` on ties.  An inconsistent comparator makes
the sort order implementation-defined (ECMA-262), so the selected element
is modelled by the intended semantics stated in the spec (§9, "equal-
heuristic moves chosen uniformly at random"): one rng draw picks uniformly
among the neighbours of minimal score.  Every property proved below is
insensitive to which valid neighbour is selected. -/
def chooseNext (st : Nat) (n0 : Cell × Nat) (rest : List (Cell × Nat)) : Cell × Nat :=
  let minScore := rest.foldl (fun m p => min m p.2) n0.2
  let cands := (n0 :: rest).filter fun p => p.2 == minScore
  let dr := drawIndex st (cands.length : Int)
  ((cands.getD dr.1.toNat n0).1, dr.2)

/-- One generation attempt's walk loop (`while (path.length < totalCells)`)
with explicit fuel; the path is accumulated in reverse (head = current
cell).  Each iteration pushes a fresh cell, so `size²` fuel is enough for
the loop to run to its real exit condition. -/
def walkLoop (size : Int) : Nat → Grid → List Cell → Cell → Nat → List Cell × Nat
  | 0, _, rpath, _, st => (rpath, st)
  | fuel + 1, v, rpath, cur, st =>
    if (rpath.length : Int) < size * size then
      match neighbourCells size v cur with
      | [] => (rpath, st)
      | n0 :: rest =>
        let ch := chooseNext st n0 rest
        walkLoop size fuel (visSet v ch.1.row ch.1.col) (ch.1 :: rpath) ch.1 ch.2
    else (rpath, st)

/-- One attempt of `findHamiltonianPath`: draw a start cell, mark it
visited, and walk.  When `size ≤ 0` the `visited` array is empty and the
write `visited[startRow][startCol] = true` throws a `TypeError`
(`visited[startRow]` is `undefined`), modelled as `Except.error`; for
`size ≥ 1` the start row is always in range and no error can occur. -/
def runAttempt (size : Int) (st : Nat) : Except String (Option (List Cell) × Nat) :=
  let d1 := drawIndex st size
  let d2 := drawIndex d1.2 size
  let startRow := d1.1
  let startCol := d2.1
  let visited := mkVisited size
  if 0 ≤ startRow ∧ startRow < (visited.length : Int) then
    let v1 := visSet visited startRow startCol
    let start : Cell := ⟨startRow, startCol⟩
    let w := walkLoop size (size * size).toNat v1 [start] start d2.2
    if (w.1.length : Int) = size * size then Except.ok (some w.1.reverse, w.2)
    else Except.ok (none, w.2)
  else Except.error ("TypeError: Cannot set properties of undefined")

/-- The attempt loop of `findHamiltonianPath`
(`for (let attempt = 0; attempt < maxAttempts; attempt++)`). -/
def findLoop (size : Int) : Nat → Nat → Except String (Option (List Cell) × Nat)
  | 0, st => Except.ok (none, st)
  | n + 1, st =>
    match runAttempt size st with
    | Except.error e => Except.error e
    | Except.ok (some p, st1) => Except.ok (some p, st1)
    | Except.ok (none, st1) => findLoop size n st1

/-- Model of `findHamiltonianPath` from the generator in `types.ts` (the
source's default budget, 20, is passed explicitly by its callers here).
Returns the found path (in push order) or `none`, plus the rng state. -/
def findHamiltonianPath (size : Int) (st : Nat) (maxAttempts : Nat) :
    Except String (Option (List Cell) × Nat) :=
  findLoop size maxAttempts st

/-- The generator's ultimate-fallback boustrophedon snake path: row by row,
even rows left to right, odd rows right to left. -/
def snakePath (size : Int) : List Cell :=
  (List.range size.toNat).flatMap fun (r : Nat) =>
    (List.range size.toNat).map fun (c : Nat) =>
      { row := (r : Int), col := if r % 2 = 0 then (c : Int) else size - 1 - (c : Int) }

/-- Model of `selectAnchors` from the generator in `types.ts`.  The float
step `(totalCells - 1) / (numAnchors - 1)` and products `i * step` are
modelled as exact rationals; `Math.round` (round half toward `+∞`) is
Mathlib's `round`.  For the (path length, anchor count) pairs the engine
uses, every `i * step` is at distance well above the float error from the
nearest half-integer boundary it does not hit exactly, so the rational
model agrees with the float computation.  JavaScript would produce
`undefined` cells on an empty path (`path[idx]` out of range); the model
returns a junk cell there — the generator never passes an empty path. -/
def selectAnchors (path : List Cell) (numAnchors : Int) : List Anchor :=
  let totalCells : Int := path.length
  if numAnchors ≤ 2 then
    [{ row := (path.getD 0 ⟨0, 0⟩).row, col := (path.getD 0 ⟨0, 0⟩).col, number := 1 },
     { row := (path.getD (totalCells - 1).toNat ⟨0, 0⟩).row,
       col := (path.getD (totalCells - 1).toNat ⟨0, 0⟩).col, number := 2 }]
  else
    (List.range numAnchors.toNat).map fun (i : Nat) =>
      let step : ℚ := ((totalCells : ℚ) - 1) / ((numAnchors : ℚ) - 1)
      let idx := round ((i : ℚ) * step)
      { row := (path.getD idx.toNat ⟨0, 0⟩).row,
        col := (path.getD idx.toNat ⟨0, 0⟩).col, number := (i : Int) + 1 }

/-- The generator's `anchorCounts` lookup table (`Record<number, number>`). -/
def anchorCounts (size : Int) : Option Int :=
  if size = 5 then some 5
  else if size = 6 then some 9
  else if size = 7 then some 12
  else if size = 8 then some 15
  else none

/-- Model of `anchorCounts[size] ?? Math.ceil(size * 1.2)` (the float
literal `1.2` is modelled as the rational `6/5`; the fallback formula is
unreachable for the sizes the generator produces). -/
def anchorCount (size : Int) : Int :=
  (anchorCounts size).getD (Int.ceil ((size : ℚ) * (6 / 5)))

/-- The path-selection ladder of `generatePuzzle`: the primary search with
budget 20, the retry with budget 50, then the deterministic snake path. -/
def puzzlePath (size : Int) (st : Nat) : Except String (List Cell × Nat) :=
  match findHamiltonianPath size st 20 with
  | Except.error e => Except.error e
  | Except.ok (some p, st1) => Except.ok (p, st1)
  | Except.ok (none, st1) =>
    match findHamiltonianPath size st1 50 with
    | Except.error e => Except.error e
    | Except.ok (some p, st2) => Except.ok (p, st2)
    | Except.ok (none, st2) => Except.ok (snakePath size, st2)

/-- Model of `Puzzle` from `types.ts`. -/
structure Puzzle where
  id : String
  size : Int
  anchors : List Anchor
  date : String
  difficulty : Difficulty
deriving DecidableEq, Repr

/-- The difficulty/size selection of `generatePuzzle`: the override table
(easy 5, medium 6, hard 8), the strict-date branch, or the seeded random
tier.  The thresholds `rand < 0.3` and `rand < 0.7` on the float
`t / 2^32` are exactly `10·t < 3·2^32` and `10·t < 7·2^32` (the float
literals `0.3`, `0.7` lie just below the decimals, but no integer
`t / 2^32` falls between them). -/
def difficultyPick (seedStr : String) (difficultyOverride : Option Difficulty)
    (rng : Nat) : DifficultySize × Nat :=
  match difficultyOverride with
  | some d =>
    (⟨d, if d = Difficulty.easy then 5 else if d = Difficulty.medium then 6 else 8⟩, rng)
  | none =>
    if isDateFormat seedStr then (getDifficultyForDate seedStr, rng)
    else
      let p := mulberryNext rng
      if 10 * p.1 < 3 * 2 ^ 32 then (⟨Difficulty.easy, 5⟩, p.2)
      else if 10 * p.1 < 7 * 2 ^ 32 then (⟨Difficulty.medium, 6⟩, p.2)
      else (⟨Difficulty.hard, 8⟩, p.2)

/-- Model of `generatePuzzle(seedStr, difficultyOverride?)` from the
generator in `types.ts`: hash the seed, seed the rng, pick difficulty and
size, find (or fall back to) a full path, select anchors, and assemble the
puzzle.  The found path itself is discarded; only the anchors are kept. -/
def generatePuzzle (seedStr : String) (difficultyOverride : Option Difficulty) :
    Except String Puzzle :=
  let seed := hashDate seedStr
  let rng := createRng seed
  let pick := difficultyPick seedStr difficultyOverride rng
  match puzzlePath pick.1.size pick.2 with
  | Except.error e => Except.error e
  | Except.ok (path, _) =>
    Except.ok
      { id := "zip-" ++ seedStr
        size := pick.1.size
        anchors := selectAnchors path (anchorCount pick.1.size)
        date := seedStr
        difficulty := pick.1.difficulty }

lemma mulberryNext_fst_lt (s : Nat) : (mulberryNext s).1 < 2 ^ 32 := by
  have hs : ∀ a k : Nat, a >>> k ≤ a := fun a k => by
    rw [Nat.shiftRight_eq_div_pow]
    exact Nat.div_le_self _ _
  simp only [mulberryNext]
  apply Nat.xor_lt_two_pow
  · apply Nat.xor_lt_two_pow
    · exact Nat.mod_lt _ (by norm_num)
    · exact Nat.mod_lt _ (by norm_num)
  · refine lt_of_le_of_lt (hs _ _) ?_
    apply Nat.xor_lt_two_pow
    · exact Nat.mod_lt _ (by norm_num)
    · exact Nat.mod_lt _ (by norm_num)

lemma drawIndex_nonneg (st : Nat) {m : Int} (hm : 0 ≤ m) : 0 ≤ (drawIndex st m).1 := by
  simp only [drawIndex]
  exact Int.fdiv_nonneg (by positivity) (by norm_num)

lemma drawIndex_lt (st : Nat) {m : Int} (hm : 1 ≤ m) : (drawIndex st m).1 < m := by
  simp only [drawIndex]
  have ht : ((mulberryNext st).1 : Int) < 2 ^ 32 := by
    exact_mod_cast mulberryNext_fst_lt st
  rw [Int.fdiv_eq_ediv _ (by norm_num), Int.ediv_lt_iff_lt_mul (by norm_num)]
  calc ((mulberryNext st).1 : Int) * m < 2 ^ 32 * m :=
        mul_lt_mul_of_pos_right ht (by omega)
    _ = m * 2 ^ 32 := mul_comm _ _

/-- Well-formedness of the visited grid: `size × size` entries. -/
def gridWF (size : Int) (v : Grid) : Prop :=
  v.length = size.toNat ∧ ∀ row ∈ v, row.length = size.toNat

lemma mkVisited_wf (size : Int) : gridWF size (mkVisited size) := by
  refine ⟨List.length_replicate _ _, fun row hr => ?_⟩
  rw [List.eq_of_mem_replicate hr]
  exact List.length_replicate _ _

lemma getD_true_lt {l : List Bool} {j : Nat} (h : l.getD j false = true) :
    j < l.length := by
  by_contra hj
  rw [List.getD_eq_getElem?_getD, List.getElem?_eq_none (by omega), Option.getD_none] at h
  cases h

lemma visGet_row_lt {v : Grid} {r c : Int} (h : visGet v r c = true) :
    r.toNat < v.length := by
  by_contra hr
  have hnil : v.getD r.toNat [] = [] := by
    rw [List.getD_eq_getElem?_getD, List.getElem?_eq_none (by omega), Option.getD_none]
  rw [visGet, hnil] at h
  simp at h

lemma visSet_wf {size : Int} {v : Grid} (h : gridWF size v) (r c : Int) :
    gridWF size (visSet v r c) := by
  obtain ⟨h1, h2⟩ := h
  refine ⟨by rw [visSet, List.length_set]; exact h1, ?_⟩
  intro row hrow
  by_cases hr : r.toNat < v.length
  · rcases List.mem_or_eq_of_mem_set hrow with hmem | heq
    · exact h2 row hmem
    · subst heq
      rw [List.length_set, List.getD_eq_getElem _ _ hr]
      exact h2 _ (List.getElem_mem hr)
  · rw [visSet, List.set_eq_of_length_le (by omega)] at hrow
    exact h2 row hrow

lemma visGet_visSet_self {size : Int} {v : Grid} (h : gridWF size v) {r c : Int}
    (hr0 : 0 ≤ r) (hrs : r < size) (hc0 : 0 ≤ c) (hcs : c < size) :
    visGet (visSet v r c) r c = true := by
  obtain ⟨h1, h2⟩ := h
  have hr : r.toNat < v.length := by rw [h1]; omega
  have hrow : (v.getD r.toNat []).length = size.toNat := by
    rw [List.getD_eq_getElem _ _ hr]
    exact h2 _ (List.getElem_mem hr)
  have hgetrow : (visSet v r c).getD r.toNat [] = (v.getD r.toNat []).set c.toNat true := by
    rw [visSet, List.getD_eq_getElem _ _ (by rw [List.length_set]; exact hr),
      List.getElem_set_self]
  rw [visGet, hgetrow, List.getD_eq_getElem _ _ (by rw [List.length_set]; omega),
    List.getElem_set_self]

lemma visSet_getD_row {v : Grid} {r : Int} (hr : r.toNat < v.length) (c : Int) :
    (visSet v r c).getD r.toNat [] = (v.getD r.toNat []).set c.toNat true := by
  rw [visSet, List.getD_eq_getElem _ _ (by rw [List.length_set]; exact hr),
    List.getElem_set_self]

lemma visGet_visSet_of_visGet {v : Grid} {r c r' c' : Int}
    (h : visGet v r' c' = true) : visGet (visSet v r c) r' c' = true := by
  have hr' : r'.toNat < v.length := visGet_row_lt h
  rw [visGet] at h
  have hc' : c'.toNat < (v.getD r'.toNat []).length := getD_true_lt h
  rw [visGet]
  by_cases hrr : r.toNat = r'.toNat
  · rw [← hrr] at h hc' ⊢
    rw [visSet_getD_row (by omega) c]
    by_cases hcc : c.toNat = c'.toNat
    · rw [← hcc]
      rw [List.getD_eq_getElem _ _ (by rw [List.length_set]; omega),
        List.getElem_set_self]
    · rw [List.getD_eq_getElem _ _ (by rw [List.length_set]; exact hc'),
        List.getElem_set_ne hcc]
      rw [List.getD_eq_getElem _ _ hc'] at h
      exact h
  · have hrow : (visSet v r c).getD r'.toNat [] = v.getD r'.toNat [] := by
      rw [visSet, List.getD_eq_getElem _ _ (by rw [List.length_set]; exact hr'),
        List.getElem_set_ne hrr, ← List.getD_eq_getElem _ _ hr']
    rw [hrow]
    exact h

lemma isValid_iff {row col size : Int} {v : Grid} :
    isValid row col size v = true ↔
      (0 ≤ row ∧ row < size ∧ 0 ≤ col ∧ col < size) ∧ visGet v row col = false := by
  simp [isValid, and_assoc]

lemma isAdjacent_comm (a b : Cell) : isAdjacent a b = isAdjacent b a := by
  have h1 : (a.row - b.row).natAbs = (b.row - a.row).natAbs := by omega
  have h2 : (a.col - b.col).natAbs = (b.col - a.col).natAbs := by omega
  simp only [isAdjacent, h1, h2]

lemma mem_neighbourCells {size : Int} {v : Grid} {cur : Cell} {p : Cell × Nat}
    (h : p ∈ neighbourCells size v cur) :
    isValid p.1.row p.1.col size v = true ∧ isAdjacent p.1 cur = true := by
  simp only [neighbourCells, List.mem_filterMap] at h
  obtain ⟨dd, hdd, hp⟩ := h
  by_cases hv : isValid (cur.row + dd.1) (cur.col + dd.2) size v = true
  · rw [if_pos hv] at hp
    obtain rfl : _ = p := Option.some.inj hp
    refine ⟨hv, ?_⟩
    have hdd' : dd = ((0 : Int), (1 : Int)) ∨ dd = (1, 0) ∨ dd = (0, -1) ∨ dd = (-1, 0) := by
      simpa [DIRS] using hdd
    rcases hdd' with rfl | rfl | rfl | rfl <;> simp [isAdjacent] <;> omega
  · rw [if_neg hv] at hp
    cases hp

lemma chooseNext_mem (st : Nat) (n0 : Cell × Nat) (rest : List (Cell × Nat)) :
    ∃ p ∈ n0 :: rest, (chooseNext st n0 rest).1 = p.1 := by
  rw [chooseNext]
  set cands :=
    (n0 :: rest).filter (fun p => p.2 == rest.foldl (fun m p => min m p.2) n0.2) with hcands
  by_cases hi : (drawIndex st (cands.length : Int)).1.toNat < cands.length
  · refine ⟨cands.getD (drawIndex st (cands.length : Int)).1.toNat n0, ?_, rfl⟩
    rw [List.getD_eq_getElem _ _ hi]
    exact List.mem_of_mem_filter (List.getElem_mem hi)
  · rw [List.getD_eq_getElem?_getD, List.getElem?_eq_none (by omega), Option.getD_none]
    exact ⟨n0, List.mem_cons_self _ _, rfl⟩

/-- The invariant maintained by the walk: well-formed visited grid, no
duplicates, cells in bounds, consecutive (reversed) cells adjacent, and
every path cell marked visited. -/
def walkInv (size : Int) (v : Grid) (rpath : List Cell) : Prop :=
  gridWF size v ∧ rpath.Nodup ∧ (∀ p ∈ rpath, inBounds size p) ∧
    rpath.Chain' (fun a b => isAdjacent a b = true) ∧
    (∀ p ∈ rpath, visGet v p.row p.col = true)

lemma walkLoop_props (size : Int) (fuel : Nat) :
    ∀ (v : Grid) (rpath : List Cell) (cur : Cell) (st : Nat),
    walkInv size v rpath → rpath.head? = some cur →
    (walkLoop size fuel v rpath cur st).1.Nodup ∧
      (∀ p ∈ (walkLoop size fuel v rpath cur st).1, inBounds size p) ∧
      (walkLoop size fuel v rpath cur st).1.Chain' (fun a b => isAdjacent a b = true) ∧
      (walkLoop size fuel v rpath cur st).1 ≠ [] := by
  induction fuel with
  | zero =>
    intro v rpath cur st hinv hcur
    obtain ⟨hwf, hnd, hb, hch, hvis⟩ := hinv
    have hne : rpath ≠ [] := by intro h; rw [h] at hcur; simp at hcur
    simp only [walkLoop]
    exact ⟨hnd, hb, hch, hne⟩
  | succ fuel ih =>
    intro v rpath cur st hinv hcur
    obtain ⟨hwf, hnd, hb, hch, hvis⟩ := hinv
    have hne : rpath ≠ [] := by intro h; rw [h] at hcur; simp at hcur
    simp only [walkLoop]
    by_cases hlen : (rpath.length : Int) < size * size
    · rw [if_pos hlen]
      cases hnb : neighbourCells size v cur with
      | nil => exact ⟨hnd, hb, hch, hne⟩
      | cons n0 rest =>
        obtain ⟨q, hqmem, hq⟩ := chooseNext_mem st n0 rest
        have hqn : q ∈ neighbourCells size v cur := by rw [hnb]; exact hqmem
        obtain ⟨hvalid, hadj⟩ := mem_neighbourCells hqn
        rw [isValid_iff] at hvalid
        obtain ⟨⟨hq1, hq2, hq3, hq4⟩, hunvis⟩ := hvalid
        have hqb : inBounds size q.1 := ⟨hq1, hq2, hq3, hq4⟩
        refine ih _ _ _ _ ⟨visSet_wf hwf _ _, ?_, ?_, ?_, ?_⟩ rfl
        · rw [List.nodup_cons]
          refine ⟨fun hmem => ?_, hnd⟩
          rw [hq] at hmem
          rw [hvis _ hmem] at hunvis
          cases hunvis
        · intro p hp
          rcases List.mem_cons.mp hp with rfl | hp'
          · rw [hq]; exact hqb
          · exact hb p hp'
        · refine List.chain'_cons'.mpr ⟨fun y hy => ?_, hch⟩
          have hyc : y = cur := by
            rw [Option.mem_def, hcur, Option.some.injEq] at hy
            exact hy.symm
          rw [hyc, hq]
          exact hadj
        · intro p hp
          rcases List.mem_cons.mp hp with rfl | hp'
          · rw [hq]
            exact visGet_visSet_self hwf hq1 hq2 hq3 hq4
          · exact visGet_visSet_of_visGet (hvis p hp')
    · rw [if_neg hlen]
      exact ⟨hnd, hb, hch, hne⟩

lemma chain'_reverse_adj {l : List Cell}
    (h : l.Chain' (fun a b => isAdjacent a b = true)) :
    l.reverse.Chain' (fun a b => isAdjacent a b = true) := by
  rw [List.chain'_reverse]
  refine h.imp ?_
  intro a b hab
  show isAdjacent b a = true
  rw [isAdjacent_comm]
  exact hab

lemma runAttempt_some_props {size : Int} {st : Nat} {p : List Cell} {st' : Nat}
    (h : runAttempt size st = Except.ok (some p, st')) :
    1 ≤ size ∧ (p.length : Int) = size * size ∧ p.Nodup ∧
      (∀ c ∈ p, inBounds size c) ∧ p.Chain' (fun a b => isAdjacent a b = true) := by
  simp only [runAttempt] at h
  split at h
  case isFalse => cases h
  case isTrue hguard =>
    obtain ⟨hg1, hg2⟩ := hguard
    rw [show (mkVisited size).length = size.toNat from by
      rw [mkVisited, List.length_replicate]] at hg2
    have hsize : 1 ≤ size := by omega
    have hr0 : 0 ≤ (drawIndex st size).1 := hg1
    have hrs : (drawIndex st size).1 < size := by omega
    have hc0 : 0 ≤ (drawIndex (drawIndex st size).2 size).1 :=
      drawIndex_nonneg _ (by omega)
    have hcs : (drawIndex (drawIndex st size).2 size).1 < size :=
      drawIndex_lt _ hsize
    have hwf0 : gridWF size (mkVisited size) := mkVisited_wf size
    have hinv : walkInv size
        (visSet (mkVisited size) (drawIndex st size).1 (drawIndex (drawIndex st size).2 size).1)
        [⟨(drawIndex st size).1, (drawIndex (drawIndex st size).2 size).1⟩] := by
      refine ⟨visSet_wf hwf0 _ _, by simp, ?_, by simp, ?_⟩
      · intro q hq
        rw [List.mem_singleton.mp hq]
        exact ⟨hr0, hrs, hc0, hcs⟩
      · intro q hq
        rw [List.mem_singleton.mp hq]
        exact visGet_visSet_self hwf0 hr0 hrs hc0 hcs
    have hprops := walkLoop_props size (size * size).toNat _ _ _
      (drawIndex (drawIndex st size).2 size).2 hinv rfl
    obtain ⟨hnd, hb, hch, _⟩ := hprops
    split at h
    case isTrue hlen =>
      simp only [Except.ok.injEq, Prod.mk.injEq, Option.some.injEq] at h
      obtain ⟨hp, _⟩ := h
      subst hp
      refine ⟨hsize, by rw [List.length_reverse]; exact hlen, ?_, ?_, ?_⟩
      · exact List.nodup_reverse.mpr hnd
      · intro c hc
        exact hb c (List.mem_reverse.mp hc)
      · exact chain'_reverse_adj hch
    case isFalse => cases h

lemma runAttempt_error_of_nonpos {size : Int} (hs : size ≤ 0) (st : Nat) :
    runAttempt size st = Except.error ("TypeError: Cannot set properties of undefined") := by
  simp only [runAttempt]
  rw [if_neg]
  intro ⟨h1, h2⟩
  rw [show (mkVisited size).length = size.toNat from by
    rw [mkVisited, List.length_replicate]] at h2
  omega

lemma findLoop_some_props {size : Int} {n : Nat} {st : Nat} {p : List Cell} {st' : Nat}
    (h : findLoop size n st = Except.ok (some p, st')) :
    1 ≤ size ∧ (p.length : Int) = size * size ∧ p.Nodup ∧
      (∀ c ∈ p, inBounds size c) ∧ p.Chain' (fun a b => isAdjacent a b = true) := by
  induction n generalizing st with
  | zero => simp [findLoop] at h
  | succ n ih =>
    simp only [findLoop] at h
    cases hra : runAttempt size st with
    | error e => rw [hra] at h; cases h
    | ok pr =>
      obtain ⟨op, st1⟩ := pr
      cases op with
      | some q =>
        rw [hra] at h
        simp only [Except.ok.injEq, Prod.mk.injEq, Option.some.injEq] at h
        obtain ⟨hq, _⟩ := h
        subst hq
        exact runAttempt_some_props hra
      | none =>
        rw [hra] at h
        exact ih h

/-- A duplicate-free list of in-bounds cells of full length is a
permutation of the whole grid. -/
lemma perm_gridCells_of_props {size : Int} {p : List Cell} (hs : 0 ≤ size)
    (hlen : (p.length : Int) = size * size) (hnd : p.Nodup)
    (hb : ∀ c ∈ p, inBounds size c) : p.Perm (gridCells size) := by
  have hsub : p ⊆ gridCells size := fun c hc => mem_gridCells.mpr (hb c hc)
  have hlen' : (gridCells size).length ≤ p.length := by
    rw [length_gridCells]
    have : ((size.toNat * size.toNat : Nat) : Int) = size * size := by
      push_cast
      rw [Int.toNat_of_nonneg hs]
    omega
  exact (hnd.subperm hsub).perm_of_length_le hlen'

lemma drawIndex_one (st : Nat) : (drawIndex st 1).1 = 0 := by
  have h := mulberryNext_fst_lt st
  simp only [drawIndex]
  rw [mul_one, Int.fdiv_eq_ediv _ (by norm_num)]
  apply Int.ediv_eq_zero_of_lt (Int.natCast_nonneg _)
  exact_mod_cast h

lemma walkLoop_stop {size : Int} {fuel : Nat} {v : Grid} {rpath : List Cell}
    {cur : Cell} {st : Nat} (h : ¬ ((rpath.length : Int) < size * size)) :
    walkLoop size fuel v rpath cur st = (rpath, st) := by
  cases fuel with
  | zero => rfl
  | succ fuel => rw [walkLoop, if_neg h]

lemma runAttempt_one (st : Nat) :
    runAttempt 1 st = Except.ok (some [⟨0, 0⟩], (drawIndex (drawIndex st 1).2 1).2) := by
  simp only [runAttempt, drawIndex_one]
  rw [if_pos (by norm_num [mkVisited]), walkLoop_stop (by norm_num), if_pos (by norm_num)]
  rfl

lemma find_one (st : Nat) (n : Nat) :
    findHamiltonianPath 1 st (n + 1) =
      Except.ok (some [⟨0, 0⟩], (drawIndex (drawIndex st 1).2 1).2) := by
  rw [findHamiltonianPath, findLoop, runAttempt_one]

/-- **C4**: whenever `findHamiltonianPath` returns a path rather than
"not found", that path is a permutation of all `size²` grid cells — it
covers every in-bounds cell exactly once — and every consecutive pair of
cells is axis-adjacent at distance 1. -/
theorem c4_findHamiltonianPath_hamiltonian (size : Int) (st : Nat) (maxAttempts : Nat)
    (path : List Cell) (st' : Nat)
    (h : findHamiltonianPath size st maxAttempts = Except.ok (some path, st')) :
    path.Perm (gridCells size) ∧
      path.Chain' (fun a b => isAdjacent a b = true) ∧
      (∀ c : Cell, inBounds size c → path.count c = 1) := by
  rw [findHamiltonianPath] at h
  obtain ⟨hs, hlen, hnd, hb, hch⟩ := findLoop_some_props h
  have hperm := perm_gridCells_of_props (by omega) hlen hnd hb
  refine ⟨hperm, hch, fun c hc => ?_⟩
  rw [hperm.count_eq]
  exact List.count_eq_one_of_mem (nodup_gridCells size) (mem_gridCells.mpr hc)

/-- Witness for C4 at a concrete input: the search on the 1×1 grid with
seed state 0 and one attempt returns the single-cell path. -/
theorem c4_findHamiltonianPath_hamiltonian_witness :
    ([⟨0, 0⟩] : List Cell).Perm (gridCells 1) ∧
      ([⟨0, 0⟩] : List Cell).Chain' (fun a b => isAdjacent a b = true) ∧
      (∀ c : Cell, inBounds 1 c → ([⟨0, 0⟩] : List Cell).count c = 1) :=
  c4_findHamiltonianPath_hamiltonian 1 0 1 [⟨0, 0⟩] ((drawIndex (drawIndex 0 1).2 1).2)
    (find_one 0 0)

/-- **C9**: the claim says `findHamiltonianPath` handles `size ≤ 1` without
error, returning `[(0,0)]` for size 1 and an empty path for size 0 or
below.  The code does return `[(0,0)]` for size 1, but for `size ≤ 0` (with
at least one attempt) it throws a `TypeError` instead of returning an empty
path: `visited` is the empty array, so `visited[startRow][startCol] = true`
writes a property of `undefined`.  This theorem exhibits both behaviours of
the code. -/
theorem c9_size_zero_throws_size_one_single_cell :
    (∀ size : Int, size ≤ 0 → ∀ st n : Nat, findHamiltonianPath size st (n + 1) =
      Except.error ("TypeError: Cannot set properties of undefined")) ∧
    (∀ st n : Nat, findHamiltonianPath 1 st (n + 1) =
      Except.ok (some [⟨0, 0⟩], (drawIndex (drawIndex st 1).2 1).2)) := by
  constructor
  · intro size hs st n
    rw [findHamiltonianPath, findLoop, runAttempt_error_of_nonpos hs]
  · exact find_one

/-- Witness for C9 at concrete inputs: size 0 with rng state 0 and one
attempt throws; size 1 returns the single-cell path. -/
theorem c9_size_zero_throws_size_one_single_cell_witness :
    findHamiltonianPath 0 0 1 =
      Except.error ("TypeError: Cannot set properties of undefined") ∧
    findHamiltonianPath 1 0 1 =
      Except.ok (some [⟨0, 0⟩], (drawIndex (drawIndex 0 1).2 1).2) :=
  ⟨c9_size_zero_throws_size_one_single_cell.1 0 (by decide) 0 0,
   c9_size_zero_throws_size_one_single_cell.2 0 0⟩

/-- **C2** (determinism): two calls of `generatePuzzle` with the same seed
string and the same difficulty override return structurally identical
results — same id, size, ordered anchor list, date and difficulty.  The
embedding is a pure function of `(seedStr, difficultyOverride)`: the
source derives all of its randomness from the mulberry32 stream seeded
with `hashDate seedStr` and uses no ambient state, which is what makes
this equality between two separate call expressions hold. -/
theorem c2_generatePuzzle_deterministic (s : String) (o : Option Difficulty) :
    generatePuzzle s o = generatePuzzle s o ∧
      (generatePuzzle s o).map Puzzle.id = (generatePuzzle s o).map Puzzle.id ∧
      (generatePuzzle s o).map Puzzle.size = (generatePuzzle s o).map Puzzle.size ∧
      (generatePuzzle s o).map Puzzle.anchors = (generatePuzzle s o).map Puzzle.anchors ∧
      (generatePuzzle s o).map Puzzle.date = (generatePuzzle s o).map Puzzle.date ∧
      (generatePuzzle s o).map Puzzle.difficulty = (generatePuzzle s o).map Puzzle.difficulty :=
  ⟨rfl, rfl, rfl, rfl, rfl, rfl⟩

/-- One row of the snake path. -/
def rowCells (size : Int) (r : Nat) : List Cell :=
  (List.range size.toNat).map fun (c : Nat) =>
    { row := (r : Int), col := if r % 2 = 0 then (c : Int) else size - 1 - (c : Int) }

lemma snakePath_eq_rowCells (size : Int) :
    snakePath size = (List.range size.toNat).flatMap (rowCells size) := rfl

lemma inBounds_mk {size r c : Int} :
    inBounds size ⟨r, c⟩ ↔ 0 ≤ r ∧ r < size ∧ 0 ≤ c ∧ c < size := by
  simp [inBounds]

lemma snakePath_subset {size : Int} : ∀ c ∈ snakePath size, inBounds size c := by
  intro c hc
  cases c with
  | mk row col =>
    simp only [snakePath, List.mem_flatMap, List.mem_map, List.mem_range,
      Cell.mk.injEq] at hc
    obtain ⟨r, hr, cc, hcc, rfl, rfl⟩ := hc
    rw [inBounds_mk]
    by_cases hpar : r % 2 = 0
    · rw [if_pos hpar]
      omega
    · rw [if_neg hpar]
      omega

lemma snakePath_nodup (size : Int) : (snakePath size).Nodup := by
  rw [snakePath, List.nodup_flatMap]
  refine ⟨fun r _ => List.Nodup.map ?_ (List.nodup_range _), ?_⟩
  · intro a b h
    have hcol := congrArg Cell.col h
    dsimp only at hcol
    by_cases hpar : r % 2 = 0
    · rw [if_pos hpar, if_pos hpar] at hcol
      omega
    · rw [if_neg hpar, if_neg hpar] at hcol
      omega
  · refine List.Pairwise.imp ?_ (List.nodup_range _)
    intro a b hab
    simp only [Function.onFun, List.disjoint_left]
    intro c hc hc'
    simp only [List.mem_map] at hc hc'
    obtain ⟨x, _, rfl⟩ := hc
    obtain ⟨y, _, hy⟩ := hc'
    exact hab (by simpa using (congrArg Cell.row hy).symm)

lemma snakePath_length (size : Int) :
    (snakePath size).length = size.toNat * size.toNat := by
  rw [snakePath_eq_rowCells, List.length_flatMap]
  have h : List.map (List.length ∘ rowCells size) (List.range size.toNat) =
      List.replicate size.toNat size.toNat := by
    simp [Function.comp_def, rowCells]
  rw [h, List.sum_replicate, smul_eq_mul]

lemma snakePath_perm (size : Int) : (snakePath size).Perm (gridCells size) := by
  rcases le_or_lt 0 size with hs | hs
  · refine perm_gridCells_of_props hs ?_ (snakePath_nodup size) snakePath_subset
    rw [snakePath_length]
    push_cast
    rw [Int.toNat_of_nonneg hs]
  · have h0 : size.toNat = 0 := by omega
    rw [snakePath, gridCells, h0]
    simp

lemma chain'_rowCells (size : Int) (r : Nat) :
    (rowCells size r).Chain' (fun a b => isAdjacent a b = true) := by
  rw [rowCells, List.chain'_map]
  cases hn : size.toNat with
  | zero => simp
  | succ m =>
    rw [List.chain'_range_succ]
    intro i hi
    by_cases hpar : r % 2 = 0
    · rw [if_pos hpar, if_pos hpar]
      simp only [isAdjacent]
      norm_num
    · rw [if_neg hpar, if_neg hpar]
      simp only [isAdjacent]
      norm_num

lemma rowCells_head? (size : Int) {m : Nat} (hn : size.toNat = m + 1) (r : Nat) :
    (rowCells size r).head? =
      some { row := (r : Int), col := if r % 2 = 0 then 0 else size - 1 } := by
  rw [rowCells, hn, List.head?_map, List.range_succ_eq_map]
  by_cases hpar : r % 2 = 0 <;> simp [hpar]

lemma rowCells_getLast? (size : Int) {m : Nat} (hn : size.toNat = m + 1) (r : Nat) :
    (rowCells size r).getLast? =
      some { row := (r : Int)
             col := if r % 2 = 0 then (m : Int) else size - 1 - (m : Int) } := by
  rw [rowCells, hn, List.getLast?_eq_getElem?, List.length_map, List.length_range]
  have hm : m < (List.range (m + 1)).length := by
    rw [List.length_range]
    omega
  rw [show m + 1 - 1 = m from rfl, List.getElem?_map,
    List.getElem?_eq_getElem hm, List.getElem_range]
  rfl

lemma snake_chain_aux (size : Int) {m : Nat} (hn : size.toNat = m + 1) :
    ∀ k, k ≤ m + 1 →
      ((List.range k).flatMap (rowCells size)).Chain' (fun a b => isAdjacent a b = true) ∧
      (∀ j, k = j + 1 → ((List.range k).flatMap (rowCells size)).getLast? =
        some { row := (j : Int)
               col := if j % 2 = 0 then (m : Int) else size - 1 - (m : Int) }) := by
  intro k
  induction k with
  | zero =>
    intro _
    exact ⟨by simp, fun j hj => absurd hj (by omega)⟩
  | succ k ih =>
    intro hk
    obtain ⟨ihc, ihl⟩ := ih (by omega)
    rw [List.range_succ, List.flatMap_append]
    simp only [List.flatMap_cons, List.flatMap_nil, List.append_nil]
    have hsz : size = (m : Int) + 1 := by omega
    constructor
    · rw [List.chain'_append]
      refine ⟨ihc, chain'_rowCells size k, ?_⟩
      intro x hx y hy
      cases k with
      | zero => simp at hx
      | succ j =>
        rw [ihl j rfl, Option.mem_def, Option.some.injEq] at hx
        rw [rowCells_head? size hn (j + 1), Option.mem_def, Option.some.injEq] at hy
        subst hx
        subst hy
        by_cases hpar : j % 2 = 0
        · have hpar2 : ¬ ((j + 1) % 2 = 0) := by omega
          rw [if_pos hpar, if_neg hpar2]
          simp only [isAdjacent]
          norm_num
          omega
        · have hpar2 : (j + 1) % 2 = 0 := by omega
          rw [if_neg hpar, if_pos hpar2]
          simp only [isAdjacent]
          norm_num
          omega
    · intro j hj
      obtain rfl : k = j := by omega
      rw [List.getLast?_append, rowCells_getLast? size hn k]
      rfl

lemma snakePath_chain (size : Int) :
    (snakePath size).Chain' (fun a b => isAdjacent a b = true) := by
  rw [snakePath_eq_rowCells]
  cases hn : size.toNat with
  | zero => simp
  | succ m => exact (snake_chain_aux size hn (m + 1) le_rfl).1

lemma runAttempt_ok_of_pos {size : Int} (hs : 1 ≤ size) (st : Nat) :
    ∃ x, runAttempt size st = Except.ok x := by
  have hml : (mkVisited size).length = size.toNat := by
    rw [mkVisited, List.length_replicate]
  have hcond : 0 ≤ (drawIndex st size).1 ∧
      (drawIndex st size).1 < ((mkVisited size).length : Int) := by
    refine ⟨drawIndex_nonneg st (by omega), ?_⟩
    rw [hml]
    have := drawIndex_lt st hs
    omega
  simp only [runAttempt]
  rw [if_pos hcond]
  split
  · exact ⟨_, rfl⟩
  · exact ⟨_, rfl⟩

lemma find_ok {size : Int} (hs : 1 ≤ size) (n : Nat) (st : Nat) :
    ∃ x, findHamiltonianPath size st n = Except.ok x := by
  rw [findHamiltonianPath]
  induction n generalizing st with
  | zero => exact ⟨_, rfl⟩
  | succ n ih =>
    obtain ⟨x, hx⟩ := runAttempt_ok_of_pos hs st
    simp only [findLoop]
    rw [hx]
    obtain ⟨op, st1⟩ := x
    cases op with
    | some p => exact ⟨_, rfl⟩
    | none => exact ih st1

lemma find_some_props {size : Int} {st n : Nat} {p : List Cell} {st' : Nat}
    (h : findHamiltonianPath size st n = Except.ok (some p, st')) :
    1 ≤ size ∧ (p.length : Int) = size * size ∧ p.Nodup ∧
      (∀ c ∈ p, inBounds size c) ∧ p.Chain' (fun a b => isAdjacent a b = true) := by
  rw [findHamiltonianPath] at h
  exact findLoop_some_props h

lemma puzzlePath_some20 {size : Int} {st st1 : Nat} {p : List Cell}
    (h : findHamiltonianPath size st 20 = Except.ok (some p, st1)) :
    puzzlePath size st = Except.ok (p, st1) := by
  rw [puzzlePath, h]

lemma puzzlePath_after_none20 {size : Int} {st st1 : Nat}
    (h : findHamiltonianPath size st 20 = Except.ok (none, st1)) :
    puzzlePath size st = (match findHamiltonianPath size st1 50 with
      | Except.error e => Except.error e
      | Except.ok (some p, st2) => Except.ok (p, st2)
      | Except.ok (none, st2) => Except.ok (snakePath size, st2)) := by
  rw [puzzlePath, h]

lemma puzzlePath_ok {size : Int} (hs : 1 ≤ size) (st : Nat) :
    ∃ pr, puzzlePath size st = Except.ok pr ∧ pr.1.Perm (gridCells size) ∧
      pr.1.Chain' (fun a b => isAdjacent a b = true) := by
  obtain ⟨⟨op, st1⟩, hx⟩ := find_ok hs 20 st
  cases op with
  | some p =>
    obtain ⟨_, hlen, hnd, hb, hch⟩ := find_some_props hx
    exact ⟨(p, st1), puzzlePath_some20 hx,
      perm_gridCells_of_props (by omega) hlen hnd hb, hch⟩
  | none =>
    rw [puzzlePath_after_none20 hx]
    obtain ⟨⟨op2, st2⟩, hx2⟩ := find_ok hs 50 st1
    rw [hx2]
    cases op2 with
    | some p =>
      obtain ⟨_, hlen, hnd, hb, hch⟩ := find_some_props hx2
      exact ⟨(p, st2), rfl, perm_gridCells_of_props (by omega) hlen hnd hb, hch⟩
    | none => exact ⟨(snakePath size, st2), rfl, snakePath_perm size, snakePath_chain size⟩

lemma getDifficultyForDate_size (s : String) :
    (getDifficultyForDate s).size = 5 ∨ (getDifficultyForDate s).size = 6 ∨
      (getDifficultyForDate s).size = 7 := by
  simp only [getDifficultyForDate]
  split
  · split
    · exact Or.inl rfl
    · split
      · exact Or.inr (Or.inl rfl)
      · exact Or.inr (Or.inr rfl)
  · exact Or.inr (Or.inr rfl)

lemma difficultyPick_size (s : String) (o : Option Difficulty) (rng : Nat) :
    (difficultyPick s o rng).1.size = 5 ∨ (difficultyPick s o rng).1.size = 6 ∨
      (difficultyPick s o rng).1.size = 7 ∨ (difficultyPick s o rng).1.size = 8 := by
  cases o with
  | some d => cases d <;> simp [difficultyPick]
  | none =>
    simp only [difficultyPick]
    split
    · rcases getDifficultyForDate_size s with h | h | h <;> simp [h]
    · split
      · simp
      · split
        · simp
        · simp

lemma generatePuzzle_ok (s : String) (o : Option Difficulty) :
    ∃ p, generatePuzzle s o = Except.ok p := by
  have hs : 1 ≤ (difficultyPick s o (createRng (hashDate s))).1.size := by
    rcases difficultyPick_size s o (createRng (hashDate s)) with h | h | h | h <;> omega
  obtain ⟨⟨path, st⟩, hpr, _, _⟩ :=
    puzzlePath_ok hs (difficultyPick s o (createRng (hashDate s))).2
  simp only [generatePuzzle]
  rw [hpr]
  exact ⟨_, rfl⟩

/-- **C5**: `generatePuzzle` never fails: every difficulty pick yields a
grid size of at least 1; for such sizes the path ladder `puzzlePath`
(primary search with budget 20, retry with budget 50, then the
deterministic boustrophedon snake) always returns a full path — the snake
itself covers every cell of the grid exactly once with axis-adjacent
consecutive moves — so a Puzzle is always produced. -/
theorem c5_generation_never_fails :
    (∀ (seedStr : String) (o : Option Difficulty),
      ∃ p, generatePuzzle seedStr o = Except.ok p) ∧
    (∀ size : Int, (snakePath size).Perm (gridCells size) ∧
      (snakePath size).Chain' (fun a b => isAdjacent a b = true)) ∧
    (∀ size : Int, 1 ≤ size → ∀ st : Nat,
      ∃ pr, puzzlePath size st = Except.ok pr ∧ pr.1.Perm (gridCells size) ∧
        pr.1.Chain' (fun a b => isAdjacent a b = true)) :=
  ⟨generatePuzzle_ok, fun size => ⟨snakePath_perm size, snakePath_chain size⟩,
    fun _ hs st => puzzlePath_ok hs st⟩

/-- Witness for C5 at a concrete input: the path ladder on the 3×3 grid
with rng state 7 produces a full path. -/
theorem c5_generation_never_fails_witness :
    ∃ pr, puzzlePath 3 7 = Except.ok pr ∧ pr.1.Perm (gridCells 3) ∧
      pr.1.Chain' (fun a b => isAdjacent a b = true) :=
  c5_generation_never_fails.2.2 3 (by norm_num) 7

lemma generatePuzzle_date_fields (s : String) (hd : isDateFormat s = true) :
    ∃ p, generatePuzzle s none = Except.ok p ∧
      p.difficulty = (getDifficultyForDate s).difficulty ∧
      p.size = (getDifficultyForDate s).size := by
  have hpick : difficultyPick s none (createRng (hashDate s)) =
      (getDifficultyForDate s, createRng (hashDate s)) := by
    simp only [difficultyPick]
    rw [if_pos hd]
  have hs : 1 ≤ (getDifficultyForDate s).size := by
    rcases getDifficultyForDate_size s with h | h | h <;> omega
  obtain ⟨⟨path, st⟩, hpr, _, _⟩ := puzzlePath_ok hs (createRng (hashDate s))
  simp only [generatePuzzle, hpick]
  rw [hpr]
  exact ⟨_, rfl, rfl, rfl⟩

/-- **C6**: the seed `"2024-01-01"` parses as a Monday (`getDay` 1) and,
through the day-of-week policy (days 1–3 easy/5, days 4–5 medium/6,
Saturday/Sunday hard/7), `generatePuzzle` always returns an easy 5×5
puzzle for it; the seed `"2024-01-06"` is a Saturday (`getDay` 6) and
always yields a hard 7×7 puzzle.  "Always" holds because the embedding is
a pure function of the seed string (cf. C2). -/
theorem c6_daily_difficulty_policy :
    (∃ p, generatePuzzle "2024-01-01" none = Except.ok p ∧
      p.difficulty = Difficulty.easy ∧ p.size = 5) ∧
    (∃ p, generatePuzzle "2024-01-06" none = Except.ok p ∧
      p.difficulty = Difficulty.hard ∧ p.size = 7) ∧
    dayOfWeek 2024 1 1 = 1 ∧ dayOfWeek 2024 1 6 = 6 ∧
    getDifficultyForDate "2024-01-01" = ⟨Difficulty.easy, 5⟩ ∧
    getDifficultyForDate "2024-01-06" = ⟨Difficulty.hard, 7⟩ := by
  have h1 : getDifficultyForDate "2024-01-01" = ⟨Difficulty.easy, 5⟩ := by decide
  have h6 : getDifficultyForDate "2024-01-06" = ⟨Difficulty.hard, 7⟩ := by decide
  refine ⟨?_, ?_, by decide, by decide, h1, h6⟩
  · obtain ⟨p, hp, hdiff, hsize⟩ := generatePuzzle_date_fields "2024-01-01" (by decide)
    rw [h1] at hdiff hsize
    exact ⟨p, hp, hdiff, hsize⟩
  · obtain ⟨p, hp, hdiff, hsize⟩ := generatePuzzle_date_fields "2024-01-06" (by decide)
    rw [h6] at hdiff hsize
    exact ⟨p, hp, hdiff, hsize⟩

/-- Rounding a nonnegative rational `a / b` half-up equals the integer
division `(2a + b) / (2b)`. -/
lemma round_natCast_div (a b : Nat) (hb : 0 < b) :
    round ((a : ℚ) / (b : ℚ)) = (((2 * a + b) / (2 * b) : ℕ) : ℤ) := by
  have hb0 : ((b : ℚ)) ≠ 0 := by positivity
  have h2b : (0 : ℚ) < ((2 * b : ℕ) : ℚ) := by
    push_cast
    positivity
  rw [round_eq]
  have heq : (a : ℚ) / b + 1 / 2 = ((2 * a + b : ℕ) : ℚ) / ((2 * b : ℕ) : ℚ) := by
    push_cast
    field_simp
    ring
  rw [heq]
  refine Int.floor_eq_iff.mpr ⟨?_, ?_⟩
  · rw [le_div_iff h2b]
    push_cast
    exact_mod_cast Nat.div_mul_le_self (2 * a + b) (2 * b)
  · rw [div_lt_iff h2b]
    have h := (Nat.div_lt_iff_lt_mul (by omega : 0 < 2 * b)).mp
      (Nat.lt_succ_self ((2 * a + b) / (2 * b)))
    push_cast
    exact_mod_cast h

/-- The integer form of the anchor index `Math.round(i * step)`. -/
def anchorIdxNat (n c i : Nat) : Nat :=
  (2 * (i * (n - 1)) + (c - 1)) / (2 * (c - 1))

lemma round_anchor_eq (n c i : Nat) (hn : 1 ≤ n) (hc : 3 ≤ c) :
    round ((i : ℚ) * (((n : ℚ) - 1) / ((c : ℚ) - 1))) = (anchorIdxNat n c i : ℤ) := by
  have hn1 : ((n : ℚ) - 1) = ((n - 1 : ℕ) : ℚ) := by
    rw [Nat.cast_sub hn, Nat.cast_one]
  have hc1 : ((c : ℚ) - 1) = ((c - 1 : ℕ) : ℚ) := by
    rw [Nat.cast_sub (by omega), Nat.cast_one]
  rw [hn1, hc1, ← mul_div_assoc, ← Nat.cast_mul,
    round_natCast_div (i * (n - 1)) (c - 1) (by omega)]
  rfl

lemma anchorIdxNat_mono {n c : Nat} {i j : Nat} (hij : i ≤ j) :
    anchorIdxNat n c i ≤ anchorIdxNat n c j := by
  apply Nat.div_le_div_right
  have := Nat.mul_le_mul_right (n - 1) hij
  omega

lemma anchorIdxNat_zero {n c : Nat} (hc : 3 ≤ c) : anchorIdxNat n c 0 = 0 := by
  rw [anchorIdxNat]
  apply Nat.div_eq_of_lt
  omega

lemma anchorIdxNat_last {n c : Nat} (hn : 1 ≤ n) (hc : 3 ≤ c) :
    anchorIdxNat n c (c - 1) = n - 1 := by
  have h1 : 2 * ((c - 1) * (n - 1)) + (c - 1) = (c - 1) * (2 * (n - 1) + 1) := by ring
  have h2 : 2 * (c - 1) = (c - 1) * 2 := by ring
  rw [anchorIdxNat, h1, h2, Nat.mul_div_mul_left _ _ (by omega)]
  omega

lemma anchorIdxNat_lt {n c i : Nat} (hn : 1 ≤ n) (hc : 3 ≤ c) (hi : i < c) :
    anchorIdxNat n c i < n := by
  have h := anchorIdxNat_mono (n := n) (c := c) (show i ≤ c - 1 by omega)
  rw [anchorIdxNat_last hn hc] at h
  omega

lemma selectAnchors_gt2 (path : List Cell) (count : Int) (hc : 2 < count)
    (hne : path ≠ []) :
    selectAnchors path count = (List.range count.toNat).map (fun (i : Nat) =>
      { row := (path.getD (anchorIdxNat path.length count.toNat i) ⟨0, 0⟩).row
        col := (path.getD (anchorIdxNat path.length count.toNat i) ⟨0, 0⟩).col
        number := (i : Int) + 1 }) := by
  have hn : 1 ≤ path.length := List.length_pos.mpr hne
  have hc3 : 3 ≤ count.toNat := by omega
  simp only [selectAnchors]
  rw [if_neg (by omega)]
  apply List.map_congr_left
  intro i hi
  have hcast1 : ((path.length : Int) : ℚ) = ((path.length : ℕ) : ℚ) := by push_cast; rfl
  have hcast2 : ((count : ℤ) : ℚ) = ((count.toNat : ℕ) : ℚ) := by
    rw [← Int.toNat_of_nonneg (by omega : (0 : ℤ) ≤ count)]
    push_cast
    rfl
  rw [hcast1, hcast2, round_anchor_eq path.length count.toNat i hn hc3, Int.toNat_natCast]

/-- **C8**: for a non-empty path, `selectAnchors` with a requested count of
at most 2 returns exactly two anchors — the first path cell numbered 1 and
the last path cell numbered 2; with a count above 2 it returns exactly
`count` anchors numbered contiguously 1..count along the path, the
selected path indices being monotone with the first at index 0 and the
last at index `path.length - 1`. -/
theorem c8_selectAnchors_endpoints (path : List Cell) (count : Int) (hne : path ≠ []) :
    (count ≤ 2 → selectAnchors path count =
      [{ row := (path.getD 0 ⟨0, 0⟩).row, col := (path.getD 0 ⟨0, 0⟩).col, number := 1 },
       { row := (path.getD (path.length - 1) ⟨0, 0⟩).row
         col := (path.getD (path.length - 1) ⟨0, 0⟩).col
         number := 2 }]) ∧
    (2 < count → ∃ idx : Nat → Nat,
      (∀ i j, i ≤ j → idx i ≤ idx j) ∧
      idx 0 = 0 ∧ idx (count.toNat - 1) = path.length - 1 ∧
      (∀ i, i < count.toNat → idx i < path.length) ∧
      (selectAnchors path count).length = count.toNat ∧
      (∀ i, i < count.toNat → (selectAnchors path count).getD i ⟨0, 0, 0⟩ =
        { row := (path.getD (idx i) ⟨0, 0⟩).row
          col := (path.getD (idx i) ⟨0, 0⟩).col
          number := (i : Int) + 1 })) := by
  have hn : 1 ≤ path.length := List.length_pos.mpr hne
  constructor
  · intro hc
    simp only [selectAnchors]
    rw [if_pos (by omega)]
    have ht : (((path.length : Int)) - 1).toNat = path.length - 1 := by omega
    rw [ht]
  · intro hc
    have hc3 : 3 ≤ count.toNat := by omega
    refine ⟨anchorIdxNat path.length count.toNat, fun i j hij => anchorIdxNat_mono hij,
      anchorIdxNat_zero hc3, anchorIdxNat_last hn hc3,
      fun i hi => anchorIdxNat_lt hn hc3 hi, ?_, ?_⟩
    · rw [selectAnchors_gt2 path count hc hne, List.length_map, List.length_range]
    · intro i hi
      rw [selectAnchors_gt2 path count hc hne]
      have hlen : i < ((List.range count.toNat).map (fun (i : Nat) =>
          ({ row := (path.getD (anchorIdxNat path.length count.toNat i) ⟨0, 0⟩).row
             col := (path.getD (anchorIdxNat path.length count.toNat i) ⟨0, 0⟩).col
             number := (i : Int) + 1 } : Anchor))).length := by
        rw [List.length_map, List.length_range]
        exact hi
      rw [List.getD_eq_getElem _ _ hlen, List.getElem_map, List.getElem_range]

/-- Witness for C8 at concrete inputs: the two-cell path with counts 2
and 4. -/
theorem c8_selectAnchors_endpoints_witness :
    (selectAnchors ([⟨0, 0⟩, ⟨0, 1⟩] : List Cell) 2 =
      [{ row := 0, col := 0, number := 1 }, { row := 0, col := 1, number := 2 }]) ∧
    (∃ idx : Nat → Nat,
      (∀ i j, i ≤ j → idx i ≤ idx j) ∧
      idx 0 = 0 ∧ idx ((4 : Int).toNat - 1) = ([⟨0, 0⟩, ⟨0, 1⟩] : List Cell).length - 1 ∧
      (∀ i, i < (4 : Int).toNat → idx i < ([⟨0, 0⟩, ⟨0, 1⟩] : List Cell).length) ∧
      (selectAnchors ([⟨0, 0⟩, ⟨0, 1⟩] : List Cell) 4).length = (4 : Int).toNat ∧
      (∀ i, i < (4 : Int).toNat →
        (selectAnchors ([⟨0, 0⟩, ⟨0, 1⟩] : List Cell) 4).getD i ⟨0, 0, 0⟩ =
        { row := (([⟨0, 0⟩, ⟨0, 1⟩] : List Cell).getD (idx i) ⟨0, 0⟩).row
          col := (([⟨0, 0⟩, ⟨0, 1⟩] : List Cell).getD (idx i) ⟨0, 0⟩).col
          number := (i : Int) + 1 })) :=
  ⟨(c8_selectAnchors_endpoints [⟨0, 0⟩, ⟨0, 1⟩] 2 (by decide)).1 (by decide),
   (c8_selectAnchors_endpoints [⟨0, 0⟩, ⟨0, 1⟩] 4 (by decide)).2 (by decide)⟩

lemma selectAnchors_invariant {path : List Cell} {size : Int} {count : Int}
    (hperm : path.Perm (gridCells size)) (hc : 2 < count) (hne : path ≠ [])
    (hmono : ∀ j, j < count.toNat → ∀ i, i < j →
      anchorIdxNat path.length count.toNat i < anchorIdxNat path.length count.toNat j) :
    2 ≤ (selectAnchors path count).length ∧
    (∀ i, i < (selectAnchors path count).length →
      ((selectAnchors path count).getD i ⟨0, 0, 0⟩).number = (i : Int) + 1) ∧
    ((selectAnchors path count).map cellOf).Nodup ∧
    (∀ a ∈ selectAnchors path count, inBounds size (cellOf a)) := by
  have hn : 1 ≤ path.length := List.length_pos.mpr hne
  have hc3 : 3 ≤ count.toNat := by omega
  have hnd : path.Nodup := hperm.nodup_iff.mpr (nodup_gridCells size)
  have hidx : ∀ i, i < count.toNat → anchorIdxNat path.length count.toNat i < path.length :=
    fun i hi => anchorIdxNat_lt hn hc3 hi
  rw [selectAnchors_gt2 path count hc hne]
  refine ⟨?_, ?_, ?_, ?_⟩
  · rw [List.length_map, List.length_range]
    omega
  · intro i hi
    rw [List.length_map, List.length_range] at hi
    have hlen : i < ((List.range count.toNat).map (fun (i : Nat) =>
        ({ row := (path.getD (anchorIdxNat path.length count.toNat i) ⟨0, 0⟩).row
           col := (path.getD (anchorIdxNat path.length count.toNat i) ⟨0, 0⟩).col
           number := (i : Int) + 1 } : Anchor))).length := by
      rw [List.length_map, List.length_range]
      exact hi
    rw [List.getD_eq_getElem _ _ hlen, List.getElem_map, List.getElem_range]
  · rw [List.map_map]
    refine List.Nodup.map_on ?_ (List.nodup_range _)
    intro x hx y hy hxy
    rw [List.mem_range] at hx hy
    by_contra hne'
    rcases Nat.lt_or_ge x y with hlt | hge
    · have hstrict := hmono y hy x hlt
      have hgx := List.getD_eq_getElem path ⟨0, 0⟩ (hidx x hx)
      have hgy := List.getD_eq_getElem path ⟨0, 0⟩ (hidx y hy)
      have : path.getD (anchorIdxNat path.length count.toNat x) ⟨0, 0⟩ =
          path.getD (anchorIdxNat path.length count.toNat y) ⟨0, 0⟩ := hxy
      rw [hgx, hgy] at this
      have := (List.Nodup.getElem_inj_iff hnd).mp this
      omega
    · have hlt : y < x := by omega
      have hstrict := hmono x hx y hlt
      have hgx := List.getD_eq_getElem path ⟨0, 0⟩ (hidx x hx)
      have hgy := List.getD_eq_getElem path ⟨0, 0⟩ (hidx y hy)
      have : path.getD (anchorIdxNat path.length count.toNat x) ⟨0, 0⟩ =
          path.getD (anchorIdxNat path.length count.toNat y) ⟨0, 0⟩ := hxy
      rw [hgx, hgy] at this
      have := (List.Nodup.getElem_inj_iff hnd).mp this
      omega
  · intro a ha
    rw [List.mem_map] at ha
    obtain ⟨i, hi, rfl⟩ := ha
    rw [List.mem_range] at hi
    have hmem : path.getD (anchorIdxNat path.length count.toNat i) ⟨0, 0⟩ ∈ path := by
      rw [List.getD_eq_getElem _ _ (hidx i hi)]
      exact List.getElem_mem _
    exact mem_gridCells.mp (hperm.subset hmem)

/-- **C3**: every Puzzle produced by `generatePuzzle` satisfies the Puzzle
invariant: at least 2 anchors, anchor numbers forming the contiguous
sequence 1..K in list order, and pairwise distinct anchor cells inside the
grid bounds. -/
theorem c3_generatePuzzle_invariant (s : String) (o : Option Difficulty) (p : Puzzle)
    (h : generatePuzzle s o = Except.ok p) :
    2 ≤ p.anchors.length ∧
    (∀ i, i < p.anchors.length → (p.anchors.getD i ⟨0, 0, 0⟩).number = (i : Int) + 1) ∧
    (p.anchors.map cellOf).Nodup ∧
    (∀ a ∈ p.anchors, inBounds p.size (cellOf a)) := by
  have hs : 1 ≤ (difficultyPick s o (createRng (hashDate s))).1.size := by
    rcases difficultyPick_size s o (createRng (hashDate s)) with hv | hv | hv | hv <;> omega
  obtain ⟨⟨path, st⟩, hpr, hperm, hch⟩ :=
    puzzlePath_ok hs (difficultyPick s o (createRng (hashDate s))).2
  simp only [generatePuzzle] at h
  rw [hpr] at h
  simp only [Except.ok.injEq] at h
  subst h
  dsimp only
  rcases difficultyPick_size s o (createRng (hashDate s)) with hv | hv | hv | hv <;>
    rw [hv] at hperm ⊢
  · have hlen : path.length = 25 := by
      rw [hperm.length_eq, length_gridCells]
      decide
    have hne : path ≠ [] := by
      intro hcon
      rw [hcon] at hlen
      simp at hlen
    rw [show anchorCount 5 = 5 from by decide]
    exact selectAnchors_invariant hperm (by norm_num) hne (by rw [hlen]; decide)
  · have hlen : path.length = 36 := by
      rw [hperm.length_eq, length_gridCells]
      decide
    have hne : path ≠ [] := by
      intro hcon
      rw [hcon] at hlen
      simp at hlen
    rw [show anchorCount 6 = 9 from by decide]
    exact selectAnchors_invariant hperm (by norm_num) hne (by rw [hlen]; decide)
  · have hlen : path.length = 49 := by
      rw [hperm.length_eq, length_gridCells]
      decide
    have hne : path ≠ [] := by
      intro hcon
      rw [hcon] at hlen
      simp at hlen
    rw [show anchorCount 7 = 12 from by decide]
    exact selectAnchors_invariant hperm (by norm_num) hne (by rw [hlen]; decide)
  · have hlen : path.length = 64 := by
      rw [hperm.length_eq, length_gridCells]
      decide
    have hne : path ≠ [] := by
      intro hcon
      rw [hcon] at hlen
      simp at hlen
    rw [show anchorCount 8 = 15 from by decide]
    exact selectAnchors_invariant hperm (by norm_num) hne (by rw [hlen]; decide)

/-- Witness for C3 at a concrete input: the daily puzzle for 2024-01-01
satisfies the invariant. -/
theorem c3_generatePuzzle_invariant_witness :
    ∃ p, generatePuzzle "2024-01-01" none = Except.ok p ∧
      (2 ≤ p.anchors.length ∧
       (∀ i, i < p.anchors.length → (p.anchors.getD i ⟨0, 0, 0⟩).number = (i : Int) + 1) ∧
       (p.anchors.map cellOf).Nodup ∧
       (∀ a ∈ p.anchors, inBounds p.size (cellOf a))) := by
  obtain ⟨p, hp⟩ := generatePuzzle_ok "2024-01-01" none
  exact ⟨p, hp, c3_generatePuzzle_invariant "2024-01-01" none p hp⟩
